import Mathlib

set_option maxHeartbeats 1000000

namespace PhcSdk

/-! Shallow embedding of the lifeomic/phc-sdk-go client package (client.go and
the second, unnamed revision of the same file). Go strings are modeled
char-by-char as Lean strings; Go maps are modeled as association lists (a map
value is the list up to key order and duplicate-free keys; the canonicity
hypotheses used by the theorems say exactly that). JSON documents are modeled
by an explicit AST with an executable renderer (mirroring encoding/json
Marshal: sorted map keys, Go's escaping rules, integer numbers) and an
executable parser (mirroring the subset of encoding/json Unmarshal the
repository exercises). -/

/-- JSON documents. Numbers are integers: the repository only produces and
consumes integral numbers (statusCode), and arbitrary caller-supplied values
are represented by this AST. -/
inductive Json where
  | null : Json
  | bool (b : Bool) : Json
  | num (n : Int) : Json
  | str (s : String) : Json
  | arr (elems : List Json) : Json
  | obj (fields : List (String × Json)) : Json

/-- Lexicographic comparison of char lists, matching Go's byte-wise string
comparison on valid UTF-8 (UTF-8 byte order agrees with scalar-value order). -/
def charListLt : List Char → List Char → Bool
  | x :: xs, y :: ys =>
    if x.toNat < y.toNat then true
    else if y.toNat < x.toNat then false
    else charListLt xs ys
  | [], _ :: _ => true
  | _, [] => false

/-- String comparison used by Go's sort.Strings inside encoding/json. -/
def strLt (a b : String) : Bool := charListLt a.data b.data

/-- Insert a key/value pair in front of the first entry whose key is not
smaller, keeping an ascending-by-key list ascending. -/
def insortKey (p : String × α) : List (String × α) → List (String × α)
  | [] => [p]
  | q :: l => if strLt q.1 p.1 then q :: insortKey p l else p :: q :: l

/-- Sort an association list by key, ascending, as encoding/json does when
marshaling a Go map. -/
def sortByKey : List (String × α) → List (String × α)
  | [] => []
  | p :: l => insortKey p (sortByKey l)

/-- The canonical-map predicate: keys strictly ascending, hence duplicate-free.
An association list satisfying it represents a Go map directly. -/
abbrev KeysSorted (l : List (String × α)) : Prop :=
  List.Chain' (fun p q => strLt p.1 q.1 = true) l

instance instDecKeysSorted : (l : List (String × α)) → Decidable (KeysSorted l)
  | [] => isTrue trivial
  | [_] => isTrue (List.chain'_singleton _)
  | p :: q :: l =>
    haveI := instDecKeysSorted (q :: l)
    decidable_of_iff (strLt p.1 q.1 = true ∧ KeysSorted (q :: l))
      (Iff.symm (@List.chain'_cons _ (fun p q => strLt p.1 q.1 = true) p q l))

/-- Canonicity for an optional map (Go maps may be nil, modeled as none). -/
def optMapCanon : Option (List (String × α)) → Prop
  | none => True
  | some kvs => KeysSorted kvs

instance : (o : Option (List (String × α))) → Decidable (optMapCanon o)
  | none => isTrue trivial
  | some kvs => inferInstanceAs (Decidable (KeysSorted kvs))

/-- Hex digit characters, lowercase, as emitted by encoding/json \u escapes. -/
def hexDigitChar (n : Nat) : Char :=
  match n with
  | 0 => '0' | 1 => '1' | 2 => '2' | 3 => '3' | 4 => '4'
  | 5 => '5' | 6 => '6' | 7 => '7' | 8 => '8' | 9 => '9'
  | 10 => 'a' | 11 => 'b' | 12 => 'c' | 13 => 'd' | 14 => 'e'
  | _ => 'f'

/-- Decimal rendering of a natural number, most significant digit first. -/
def renderNat (n : Nat) : List Char :=
  if _h : n < 10 then [hexDigitChar n]
  else renderNat (n / 10) ++ [hexDigitChar (n % 10)]
decreasing_by exact Nat.div_lt_self (by omega) (by omega)

/-- Decimal rendering of an integer, as encoding/json renders Go ints. -/
def renderInt (i : Int) : List Char :=
  if i < 0 then '-' :: renderNat (-i).toNat else renderNat i.toNat

/-- Backslash-u escape for a scalar value below 256, as four hex digits. -/
def uEsc (v : Nat) : List Char :=
  '\\' :: 'u' :: '0' :: '0' :: hexDigitChar (v / 16) :: [hexDigitChar (v % 16)]

/-- Escaping of one character inside a JSON string, following encoding/json:
quote and backslash get a backslash escape, newline/carriage-return/tab get
their short escapes, other control characters and the HTML-sensitive three
get \u00XX, U+2028 and U+2029 get \u202X, everything else is emitted as is. -/
def escapeChar (c : Char) : List Char :=
  if c = '"' then ['\\', '"']
  else if c = '\\' then ['\\', '\\']
  else if c = '\n' then ['\\', 'n']
  else if c = '\r' then ['\\', 'r']
  else if c = '\t' then ['\\', 't']
  else if c.toNat < 32 ∨ c = '<' ∨ c = '>' ∨ c = '&' then uEsc c.toNat
  else if c.toNat = 8232 ∨ c.toNat = 8233 then
    '\\' :: 'u' :: '2' :: '0' :: '2' :: [hexDigitChar (c.toNat % 16)]
  else [c]

/-- Escape every character of a string body. -/
def escapeList (l : List Char) : List Char := (l.map escapeChar).flatten

/-- Render a JSON string literal including its delimiting quotes. -/
def renderString (s : String) : List Char := ('"' :: escapeList s.data) ++ ['"']

mutual

/-- Render a JSON document to characters, with no interstitial whitespace,
exactly as encoding/json Marshal lays it out. -/
def renderJson : Json → List Char
  | .null => "null".data
  | .bool true => "true".data
  | .bool false => "false".data
  | .num n => renderInt n
  | .str s => renderString s
  | .arr [] => ['[', ']']
  | .arr (x :: xs) => '[' :: (renderJson x ++ renderElemsTail xs) ++ [']']
  | .obj [] => ['\x7b', '\x7d']
  | .obj (f :: fs) => '\x7b' :: (renderFieldOne f ++ renderFieldsTail fs) ++ ['\x7d']

/-- Render one object member (key, colon, value). -/
def renderFieldOne : String × Json → List Char
  | (k, v) => renderString k ++ ':' :: renderJson v

/-- Render the second and later array elements, each preceded by a comma. -/
def renderElemsTail : List Json → List Char
  | x :: xs => ',' :: renderJson x ++ renderElemsTail xs
  | [] => []

/-- Render the second and later object members, each preceded by a comma. -/
def renderFieldsTail : List (String × Json) → List Char
  | f :: fs => ',' :: renderFieldOne f ++ renderFieldsTail fs
  | [] => []

end

/-- Serialize a JSON document to a string. -/
def Json.render (j : Json) : String := ⟨renderJson j⟩

/-- Value of a hex digit character, if it is one. -/
def hexVal? (c : Char) : Option Nat :=
  if c.isDigit then some (c.toNat - 48)
  else if 'a' ≤ c ∧ c ≤ 'f' then some (c.toNat - 87)
  else if 'A' ≤ c ∧ c ≤ 'F' then some (c.toNat - 55)
  else none

/-- Match an expected literal character sequence at the front of the input. -/
def stripChars : List Char → List Char → Option (List Char)
  | [], l => some l
  | _ :: _, [] => none
  | p :: ps, c :: cs => if c = p then stripChars ps cs else none

/-- Prepend a decoded character to a string-body parse result. -/
def consStr (c : Char) : Option (List Char × List Char) → Option (List Char × List Char)
  | some (s, r) => some (c :: s, r)
  | none => none

/-- Parse the body of a JSON string literal after the opening quote, undoing
the escapes; returns the decoded characters and the input after the closing
quote. The fuel argument only drives the recursion; one unit per consumed
escape group suffices, and callers pass one more than the input length. -/
def parseStringBody : Nat → List Char → Option (List Char × List Char)
  | 0, _ => none
  | fuel + 1, l =>
    match l with
    | [] => none
    | c :: cs =>
      if c = '"' then some ([], cs)
      else if c = '\\' then
        match cs with
        | [] => none
        | e :: cs2 =>
          if e = '"' then consStr '"' (parseStringBody fuel cs2)
          else if e = '\\' then consStr '\\' (parseStringBody fuel cs2)
          else if e = '/' then consStr '/' (parseStringBody fuel cs2)
          else if e = 'n' then consStr '\n' (parseStringBody fuel cs2)
          else if e = 'r' then consStr '\r' (parseStringBody fuel cs2)
          else if e = 't' then consStr '\t' (parseStringBody fuel cs2)
          else if e = 'b' then consStr '\x08' (parseStringBody fuel cs2)
          else if e = 'f' then consStr '\x0c' (parseStringBody fuel cs2)
          else if e = 'u' then
            match cs2 with
            | h1 :: h2 :: h3 :: h4 :: cs3 =>
              match hexVal? h1, hexVal? h2, hexVal? h3, hexVal? h4 with
              | some a, some b, some c2, some d =>
                consStr (Char.ofNat (4096 * a + 256 * b + 16 * c2 + d))
                  (parseStringBody fuel cs3)
              | _, _, _, _ => none
            | _ => none
          else none
      else consStr c (parseStringBody fuel cs)

/-- Consume a maximal run of decimal digits, folding them onto an accumulator. -/
def parseDigits (acc : Nat) : List Char → Nat × List Char
  | [] => (acc, [])
  | c :: cs =>
    if c.isDigit then parseDigits (10 * acc + (c.toNat - 48)) cs
    else (acc, c :: cs)

/-- Parse an optionally signed integer literal. -/
def parseNum : List Char → Option (Int × List Char)
  | [] => none
  | c :: cs =>
    if c = '-' then
      match cs with
      | [] => none
      | c2 :: _ =>
        if c2.isDigit then
          some (-((parseDigits 0 cs).1 : Int), (parseDigits 0 cs).2)
        else none
    else if c.isDigit then
      some (((parseDigits 0 (c :: cs)).1 : Int), (parseDigits 0 (c :: cs)).2)
    else none

mutual

/-- Fueled recursive-descent JSON value parser (no whitespace handling: the
repository only ever parses documents that encoding/json itself produced). -/
def parseVal : Nat → List Char → Option (Json × List Char)
  | 0, _ => none
  | fuel + 1, l =>
    match l with
    | [] => none
    | c :: cs =>
      if c = 'n' then
        match stripChars ['u', 'l', 'l'] cs with
        | some r => some (.null, r)
        | none => none
      else if c = 't' then
        match stripChars ['r', 'u', 'e'] cs with
        | some r => some (.bool true, r)
        | none => none
      else if c = 'f' then
        match stripChars ['a', 'l', 's', 'e'] cs with
        | some r => some (.bool false, r)
        | none => none
      else if c = '"' then
        match parseStringBody (cs.length + 1) cs with
        | some (content, r) => some (.str ⟨content⟩, r)
        | none => none
      else if c = '[' then
        match cs with
        | [] => none
        | c2 :: r2 =>
          if c2 = ']' then some (.arr [], r2)
          else
            match parseElems fuel cs with
            | some (vs, r) => some (.arr vs, r)
            | none => none
      else if c = '\x7b' then
        match cs with
        | [] => none
        | c2 :: r2 =>
          if c2 = '\x7d' then some (.obj [], r2)
          else
            match parseFields fuel cs with
            | some (fs, r) => some (.obj fs, r)
            | none => none
      else
        match parseNum (c :: cs) with
        | some (n, r) => some (.num n, r)
        | none => none

/-- Parse one or more comma-separated array elements up to the closing
bracket. -/
def parseElems : Nat → List Char → Option (List Json × List Char)
  | 0, _ => none
  | fuel + 1, l =>
    match parseVal fuel l with
    | none => none
    | some (v, r) =>
      match r with
      | [] => none
      | c :: r2 =>
        if c = ',' then
          match parseElems fuel r2 with
          | some (vs, r3) => some (v :: vs, r3)
          | none => none
        else if c = ']' then some ([v], r2)
        else none

/-- Parse one or more comma-separated object members up to the closing
brace. -/
def parseFields : Nat → List Char → Option (List (String × Json) × List Char)
  | 0, _ => none
  | fuel + 1, l =>
    match l with
    | [] => none
    | c :: cs =>
      if c = '"' then
        match parseStringBody (cs.length + 1) cs with
        | none => none
        | some (k, r) =>
          match r with
          | [] => none
          | c2 :: r2 =>
            if c2 = ':' then
              match parseVal fuel r2 with
              | none => none
              | some (v, r3) =>
                match r3 with
                | [] => none
                | c3 :: r4 =>
                  if c3 = ',' then
                    match parseFields fuel r4 with
                    | some (fs, r5) => some ((⟨k⟩, v) :: fs, r5)
                    | none => none
                  else if c3 = '\x7d' then some ([(⟨k⟩, v)], r4)
                  else none
            else none
      else none

end

/-- Parse a complete JSON document; fails on malformed input or trailing
characters, as encoding/json Unmarshal does. The fuel is generous enough for
any input of the given length. -/
def Json.parse (s : String) : Option Json :=
  match parseVal (2 * s.data.length + 2) s.data with
  | some (j, []) => some j
  | _ => none

/-- First-match association-list lookup. -/
def alookup (k : String) : List (String × α) → Option α
  | [] => none
  | p :: l => if p.1 = k then some p.2 else alookup k l

/-- Last-match association-list lookup; encoding/json lets a later duplicate
object key overwrite an earlier one. -/
def alookupLast (k : String) : List (String × α) → Option α
  | [] => none
  | p :: l =>
    match alookupLast k l with
    | some v => some v
    | none => if p.1 = k then some p.2 else none

/-- Insert-or-replace, the map-store operation used when decoding a JSON
object into a Go map. -/
def upsert (l : List (String × α)) (k : String) (v : α) : List (String × α) :=
  if (alookup k l).isSome then l.map (fun p => if p.1 = k then (p.1, v) else p)
  else l ++ [(k, v)]

/-- Fold a field list into a duplicate-free map, later duplicates winning. -/
def objToMap (fs : List (String × α)) : List (String × α) :=
  fs.foldl (fun acc p => upsert acc p.1 p.2) []

/-- A Go map of string to bool, possibly nil. -/
abbrev RulesMap := Option (List (String × Bool))

/-- A Go map of string to interface, possibly nil; values are arbitrary JSON
documents. -/
abbrev VarsMap := Option (List (String × Json))

/-- Contexts passed to the invocation gateway: the ambient background context
or a caller context carrying cancellation or a deadline. -/
inductive Ctx where
  | background : Ctx
  | withCancel (id : Nat) : Ctx
deriving DecidableEq

/-- Record of one call made to the invocation gateway. -/
structure InvokeCall where
  ctx : Ctx
  functionName : String
  payloadBytes : String

/-- The client struct of client.go: an injected invoker plus the account,
user and rules used for every outgoing call. The invoker models
lambda.Client.Invoke: it receives the context, function name and payload and
returns the response payload bytes or a transport error. -/
structure Client where
  invoker : Ctx → String → String → Except String String
  account : String
  user : String
  rules : RulesMap

/-- The LambdaClient struct of the unnamed source file has the same fields;
only its Do method differs from Client's. -/
abbrev LambdaClient := Client

/-- Marshal of the rules map inside the policy struct: a nil map becomes
null, otherwise an object with keys in sorted order. -/
def marshalRules : RulesMap → Json
  | none => .null
  | some kvs => .obj ((sortByKey kvs).map (fun p => (p.1, Json.bool p.2)))

/-- The JSON document produced by marshaling the policy struct. -/
def policyJson (r : RulesMap) : Json := .obj [("rules", marshalRules r)]

/-- buildHeaders from the source: the four fixed headers, with the policy
serialized to JSON. The json.Marshal error is discarded in the source and can
never fire for a map of bools. -/
def Client.buildHeaders (c : Client) : List (String × String) :=
  [("LifeOmic-Account", c.account),
   ("LifeOmic-User", c.user),
   ("content-type", "application/json"),
   ("LifeOmic-Policy", Json.render (policyJson c.rules))]

/-- The payload struct serialized as the invocation envelope. -/
structure PayloadRec where
  headers : List (String × String)
  path : String
  httpMethod : String
  queryStringParameters : List (String × String)
  body : String

/-- Marshal of the variables map inside the GraphQL body struct. -/
def marshalVars : VarsMap → Json
  | none => .null
  | some kvs => .obj (sortByKey kvs)

/-- Marshal of the payload struct: fields in declaration order, map-typed
fields with sorted keys. -/
def payloadToJson (p : PayloadRec) : Json :=
  .obj [("headers", .obj ((sortByKey p.headers).map (fun q => (q.1, Json.str q.2)))),
        ("path", .str p.path),
        ("httpMethod", .str p.httpMethod),
        ("queryStringParameters",
          .obj ((sortByKey p.queryStringParameters).map (fun q => (q.1, Json.str q.2)))),
        ("body", .str p.body)]

/-- Serialized form of the payload struct. -/
def marshalPayload (p : PayloadRec) : String := Json.render (payloadToJson p)

/-- buildGqlQuery from the source: marshal the inner GraphQL body, then wrap
it in a payload with method POST, empty query parameters, the composed
headers and the given path. -/
def Client.buildGqlQuery (c : Client) (path query : String) (vars : VarsMap) : String :=
  let body := Json.render (.obj [("query", .str query), ("variables", marshalVars vars)])
  marshalPayload ⟨c.buildHeaders, path, "POST", [], body⟩

/-- Decode a list of JSON object members into string/bool pairs; a null
member decodes to false (Unmarshal leaves the zero value), any non-bool
member is a type error. -/
def decodeBoolPairs : List (String × Json) → Option (List (String × Bool))
  | [] => some []
  | (k, v) :: rest =>
    match v with
    | .bool b => (decodeBoolPairs rest).map (fun m => (k, b) :: m)
    | .null => (decodeBoolPairs rest).map (fun m => (k, false) :: m)
    | _ => none

/-- Unmarshal a JSON document into the policy struct, reading back its rules
map (used to state that the serialized policy header round-trips). -/
def decodePolicy (j : Json) : Option RulesMap :=
  match j with
  | .null => some none
  | .obj fields =>
    match alookupLast "rules" fields with
    | none => some none
    | some .null => some none
    | some (.obj rfs) => (decodeBoolPairs rfs).map (fun l => some (objToMap l))
    | some _ => none
  | _ => none

/-- True when the input does not continue with a decimal digit, so a digit
run just parsed cannot be extended. -/
def noDigitHead : List Char → Bool
  | c :: _ => !c.isDigit
  | [] => true

mutual

/-- Fuel measure for a JSON document: an upper bound shape for the number of
parser calls needed to reparse its rendering. -/
def jsize : Json → Nat
  | .arr xs => 1 + elemsSize xs
  | .obj fs => 1 + fieldsSize fs
  | _ => 1

/-- Fuel measure for an array element list. -/
def elemsSize : List Json → Nat
  | x :: xs => 1 + jsize x + elemsSize xs
  | [] => 1

/-- Fuel measure for an object member list. -/
def fieldsSize : List (String × Json) → Nat
  | f :: fs => 1 + jsize f.2 + fieldsSize fs
  | [] => 1

end

/-- Index of the first slash, as strings.IndexAny with a one-character set
computes it (byte index and character index agree for the slash). -/
def indexOfSlash : List Char → Option Nat
  | [] => none
  | c :: cs => if c = '/' then some 0 else (indexOfSlash cs).map (· + 1)

/-- parseUri from the source: split a routing string at the first slash into
function identifier and path, failing when there is no slash. -/
def parseUri (uri : String) : Except String (String × String) :=
  match indexOfSlash uri.data with
  | none => .error "Invalid URL provided"
  | some i => .ok (⟨uri.data.take i⟩, ⟨uri.data.drop i⟩)

/-- The responsePayload struct decoded from the invocation response. -/
structure RespPayload where
  body : String
  statusCode : Int
  headers : List (String × String)

/-- Decode a list of JSON object members into string key/value pairs; a null
member decodes to the empty string (Unmarshal leaves the zero value), any
non-string member is a type error. -/
def decodeStringPairs : List (String × Json) → Option (List (String × String))
  | [] => some []
  | (k, v) :: rest =>
    match v with
    | .str s => (decodeStringPairs rest).map (fun m => (k, s) :: m)
    | .null => (decodeStringPairs rest).map (fun m => (k, "") :: m)
    | _ => none

/-- Decode a JSON value into a Go map of string to string; null decodes to
the empty map view. -/
def decodeMapString (j : Json) : Option (List (String × String)) :=
  match j with
  | .null => some []
  | .obj fs => (decodeStringPairs fs).map objToMap
  | _ => none

/-- Unmarshal a JSON document into the responsePayload struct: exact-name
field lookup (the tags are all distinct from each other modulo case, and the
repository never relies on Go's case-insensitive fallback), missing or null
fields keep their zero values, mistyped fields are errors. -/
def decodeRespPayload (j : Json) : Option RespPayload :=
  match j with
  | .null => some ⟨"", 0, []⟩
  | .obj fields =>
    match alookupLast "body" fields, alookupLast "statusCode" fields,
          alookupLast "headers" fields with
    | bf, sf, hf =>
      match (match bf with
             | none => some ""
             | some .null => some ""
             | some (.str s) => some s
             | some _ => none),
            (match sf with
             | none => some (0 : Int)
             | some .null => some 0
             | some (.num n) => some n
             | some _ => none),
            (match hf with
             | none => some []
             | some v => decodeMapString v) with
      | some b, some sc, some hs => some ⟨b, sc, hs⟩
      | _, _, _ => none
  | _ => none

/-- Unmarshal raw invocation response bytes into responsePayload. -/
def unmarshalRespPayload (s : String) : Option RespPayload :=
  (Json.parse s).bind decodeRespPayload

/-- The responseBody struct of the GraphQL path: a data map and a list of
error messages. -/
structure RespBody where
  data : Option (List (String × Json))
  errors : List String

/-- Decode a JSON value into a Go map of string to interface: null is the nil
map, an object keeps its values as documents, anything else is a type
error. -/
def decodeJsonMap (j : Json) : Option (Option (List (String × Json))) :=
  match j with
  | .null => some none
  | .obj fs => some (some (objToMap fs))
  | _ => none

/-- Decode one element of the errors array into its message: a missing or
null message field is the zero string, a non-object element other than null
or a mistyped message is an error. -/
def decodeErrElem (j : Json) : Option String :=
  match j with
  | .null => some ""
  | .obj fs =>
    match alookupLast "message" fs with
    | none => some ""
    | some .null => some ""
    | some (.str s) => some s
    | some _ => none
  | _ => none

/-- Decode every element of the errors array. -/
def decodeErrList : List Json → Option (List String)
  | [] => some []
  | x :: xs =>
    match decodeErrElem x, decodeErrList xs with
    | some m, some ms => some (m :: ms)
    | _, _ => none

/-- Decode the errors field: missing handled by the caller, null is the nil
slice, an array decodes elementwise. -/
def decodeErrsField (j : Json) : Option (List String) :=
  match j with
  | .null => some []
  | .arr xs => decodeErrList xs
  | _ => none

/-- Unmarshal a JSON document into the responseBody struct. -/
def decodeRespBody (j : Json) : Option RespBody :=
  match j with
  | .null => some ⟨none, []⟩
  | .obj fields =>
    match (match alookupLast "data" fields with
           | none => some none
           | some v => decodeJsonMap v),
          (match alookupLast "errors" fields with
           | none => some []
           | some v => decodeErrsField v) with
    | some d, some e => some ⟨d, e⟩
    | _, _ => none
  | _ => none

/-- Unmarshal the inner body string of the GraphQL path. -/
def unmarshalRespBody (s : String) : Option RespBody :=
  (Json.parse s).bind decodeRespBody

/-- Unmarshal a JSON document into the payload struct (used to state that the
serialized envelope round-trips to the intended struct). -/
def decodePayloadRec (j : Json) : Option PayloadRec :=
  match j with
  | .null => some ⟨[], "", "", [], ""⟩
  | .obj fields =>
    match (match alookupLast "headers" fields with
           | none => some []
           | some v => decodeMapString v),
          (match alookupLast "path" fields with
           | none => some ""
           | some .null => some ""
           | some (.str s) => some s
           | some _ => none),
          (match alookupLast "httpMethod" fields with
           | none => some ""
           | some .null => some ""
           | some (.str s) => some s
           | some _ => none),
          (match alookupLast "queryStringParameters" fields with
           | none => some []
           | some v => decodeMapString v),
          (match alookupLast "body" fields with
           | none => some ""
           | some .null => some ""
           | some (.str s) => some s
           | some _ => none) with
    | some hs, some pa, some me, some qs, some bo => some ⟨hs, pa, me, qs, bo⟩
    | _, _, _, _, _ => none
  | _ => none

/-- Unmarshal serialized payload bytes into the payload struct. -/
def unmarshalPayloadStr (s : String) : Option PayloadRec :=
  (Json.parse s).bind decodePayloadRec

/-- toHeader from the source: each single-valued map entry becomes a header
key with a one-element value list. -/
def toHeader (header : List (String × String)) : List (String × List String) :=
  header.map (fun p => (p.1, [p.2]))

/-- The header-merge loop of Do: for every incoming header key not already
present, store the first element of its value list. Indexing the first
element of an empty value list panics in Go; the panic is modeled by none. -/
def mergeHeaders (acc : List (String × String)) :
    List (String × List String) → Option (List (String × String))
  | [] => some acc
  | (k, vs) :: rest =>
    if (alookup k acc).isSome then mergeHeaders acc rest
    else
      match vs with
      | [] => none
      | v :: _ => mergeHeaders (acc ++ [(k, v)]) rest

/-- A generic HTTP request as Do consumes it: the routing string of its URL,
the method, the header map, the bytes ReadAll would deliver and the error, if
any, that ReadAll would report alongside them, plus the request context. -/
structure HttpRequest where
  url : String
  method : String
  header : List (String × List String)
  bodyBytes : String
  readErr : Option String
  ctx : Ctx

/-- A generic HTTP response as Do reconstructs it. -/
structure HttpResponse where
  body : String
  statusCode : Int
  header : List (String × List String)

/-- Outcome of a Do call: a Go panic, an error return, or a response. -/
inductive DoOutcome where
  | panics : DoOutcome
  | fails (msg : String) : DoOutcome
  | succeeds (resp : HttpResponse) : DoOutcome

/-- A Do call's outcome together with the invocations it performed. -/
structure DoRun where
  outcome : DoOutcome
  calls : List InvokeCall

/-- A Gql call's result together with the invocations it performed. The ok
value models the returned pointer to the data map, which may be nil. -/
structure GqlRun where
  result : Except String (Option (List (String × Json)))
  calls : List InvokeCall

/-- Stand-in message for the error value returned by encoding/json on a
failed Unmarshal; the repository propagates it verbatim and never inspects
it, so its text is irrelevant to every claim. -/
def jsonDecodeErr : String := "json: unmarshal error"

/-- Gql from the source: split the routing string, build the envelope, invoke
with a fresh background context, decode both envelope layers, surface the
first GraphQL error or return the data map. -/
def Client.Gql (c : Client) (uri query : String) (vars : VarsMap) : GqlRun :=
  match parseUri uri with
  | .error e => ⟨.error e, []⟩
  | .ok (functionName, path) =>
    let data := c.buildGqlQuery path query vars
    let call : InvokeCall := ⟨.background, functionName, data⟩
    match c.invoker .background functionName data with
    | .error e => ⟨.error e, [call]⟩
    | .ok out =>
      match unmarshalRespPayload out with
      | none => ⟨.error jsonDecodeErr, [call]⟩
      | some rp =>
        match unmarshalRespBody rp.body with
        | none => ⟨.error jsonDecodeErr, [call]⟩
        | some rb =>
          match rb.errors with
          | [] => ⟨.ok rb.data, [call]⟩
          | m :: _ => ⟨.error m, [call]⟩

/-- Do from client.go: split the URL, merge headers, read the body, marshal
the envelope, invoke with the request context, decode the response. The
ReadAll error is discarded in this revision: the err variable is immediately
reassigned by the json.Marshal and Invoke calls that follow, so a failed body
read still leads to an invocation. -/
def Client.Do (c : Client) (req : HttpRequest) : DoRun :=
  match parseUri req.url with
  | .error e => ⟨.fails e, []⟩
  | .ok (functionName, path) =>
    match mergeHeaders c.buildHeaders req.header with
    | none => ⟨.panics, []⟩
    | some hs =>
      let data := marshalPayload ⟨hs, path, req.method, [], req.bodyBytes⟩
      let call : InvokeCall := ⟨req.ctx, functionName, data⟩
      match c.invoker req.ctx functionName data with
      | .error e => ⟨.fails e, [call]⟩
      | .ok out =>
        match unmarshalRespPayload out with
        | none => ⟨.fails jsonDecodeErr, [call]⟩
        | some rp => ⟨.succeeds ⟨rp.body, rp.statusCode, toHeader rp.headers⟩, [call]⟩

/-- Do from the unnamed revision (LambdaClient.Do): identical to Client.Do
except that the ReadAll error is checked and returned before marshaling, so
no invocation happens when the body read fails. -/
def LambdaClient.Do (c : LambdaClient) (req : HttpRequest) : DoRun :=
  match parseUri req.url with
  | .error e => ⟨.fails e, []⟩
  | .ok (functionName, path) =>
    match mergeHeaders (Client.buildHeaders c) req.header with
    | none => ⟨.panics, []⟩
    | some hs =>
      match req.readErr with
      | some e => ⟨.fails e, []⟩
      | none =>
        let data := marshalPayload ⟨hs, path, req.method, [], req.bodyBytes⟩
        let call : InvokeCall := ⟨req.ctx, functionName, data⟩
        match c.invoker req.ctx functionName data with
        | .error e => ⟨.fails e, [call]⟩
        | .ok out =>
          match unmarshalRespPayload out with
          | none => ⟨.fails jsonDecodeErr, [call]⟩
          | some rp => ⟨.succeeds ⟨rp.body, rp.statusCode, toHeader rp.headers⟩, [call]⟩

/-- Test fixture: an invocation gateway double that returns fixed bytes. -/
def mockInvoker (out : String) : Ctx → String → String → Except String String :=
  fun _ _ _ => .ok out

/-- Test fixture: response payload carrying the two-error GraphQL body from
the specification's error-path test. -/
def gqlErrOut : String :=
  "\x7b\"body\":\"\x7b\\\"data\\\":\x7b\x7d,\\\"errors\\\":[\x7b\\\"message\\\":\\\"boom\\\"\x7d,\x7b\\\"message\\\":\\\"second\\\"\x7d]\x7d\",\"statusCode\":200,\"headers\":\x7b\x7d\x7d"

/-- Test fixture: the inner GraphQL body of gqlErrOut, as Gql decodes it. -/
def gqlErrInner : String :=
  "\x7b\"data\":\x7b\x7d,\"errors\":[\x7b\"message\":\"boom\"\x7d,\x7b\"message\":\"second\"\x7d]\x7d"

/-- Test fixture: response payload for the generic-path reconstruction test. -/
def doRespOut : String :=
  "\x7b\"body\":\"hello\",\"statusCode\":404,\"headers\":\x7b\"X-Test\":\"v\"\x7d\x7d"

/-- Test fixture: response payload whose inner body is the empty object. -/
def emptyBodyOut : String :=
  "\x7b\"body\":\"\x7b\x7d\",\"statusCode\":200,\"headers\":\x7b\x7d\x7d"

/-- Test fixture: a benign response payload for the Do error-path tests. -/
def okRespOut : String :=
  "\x7b\"body\":\"ok\",\"statusCode\":200,\"headers\":\x7b\x7d\x7d"

/-- Test fixture: a client around a gateway double returning okRespOut. -/
def clientOk : Client := ⟨mockInvoker okRespOut, "acct", "usr", none⟩

/-- Test fixture: a client around a gateway double returning gqlErrOut. -/
def clientGqlErr : Client := ⟨mockInvoker gqlErrOut, "acct", "usr", none⟩

/-- Test fixture: a client around a gateway double returning doRespOut. -/
def clientDoResp : Client := ⟨mockInvoker doRespOut, "acct", "usr", none⟩

/-- Test fixture: a client around a gateway double returning emptyBodyOut. -/
def clientEmptyBody : Client := ⟨mockInvoker emptyBodyOut, "acct", "usr", none⟩

/-- Test fixture: a request whose body reader fails. -/
def failingReadReq : HttpRequest :=
  ⟨"svc/items", "POST", [], "", some "read failure", .withCancel 3⟩

/-- Test fixture: a request carrying a header key with an empty value list. -/
def emptyHeaderReq : HttpRequest :=
  ⟨"svc/items", "GET", [("X-Empty", [])], "", none, .background⟩

/-- Test fixture: a client with a two-rule policy map in canonical order. -/
def clientRules : Client :=
  ⟨mockInvoker okRespOut, "acct", "usr", some [("admin", true), ("read", false)]⟩

/-- Test fixture: a plain request for the response-reconstruction test. -/
def doReq : HttpRequest := ⟨"svc/items", "GET", [], "", none, .background⟩

/-- Test fixture: a request whose routing string has no slash. -/
def noSlashReq : HttpRequest := ⟨"noslash", "GET", [], "", none, .background⟩

/-- Test fixture: a request with one well-formed extra header. -/
def okHeaderReq : HttpRequest :=
  ⟨"svc/items", "GET", [("X-One", ["a"])], "", none, .background⟩


/-! Theorems: general helper lemmas, then one theorem per claim with its
witness. -/

theorem charListLt_irrefl : ∀ l, charListLt l l = false := by
  intro l
  induction l with
  | nil => rfl
  | cons c cs ih => simp [charListLt, ih]

theorem charListLt_asymm : ∀ a b, charListLt a b = true → charListLt b a = false := by
  intro a
  induction a with
  | nil =>
    intro b h
    cases b with
    | nil => simp [charListLt] at h
    | cons y ys => rfl
  | cons x xs ih =>
    intro b h
    cases b with
    | nil => simp [charListLt] at h
    | cons y ys =>
      simp only [charListLt] at h ⊢
      by_cases h1 : x.toNat < y.toNat
      · rw [if_neg (by omega), if_pos h1]
      · by_cases h2 : y.toNat < x.toNat
        · rw [if_neg h1, if_pos h2] at h
          exact absurd h (by simp)
        · rw [if_neg h1, if_neg h2] at h
          rw [if_neg h2, if_neg h1]
          exact ih ys h

theorem charListLt_trans :
    ∀ a b c, charListLt a b = true → charListLt b c = true → charListLt a c = true := by
  intro a
  induction a with
  | nil =>
    intro b c hab hbc
    cases b with
    | nil => simp [charListLt] at hab
    | cons y ys =>
      cases c with
      | nil => simp [charListLt] at hbc
      | cons z zs => rfl
  | cons x xs ih =>
    intro b c hab hbc
    cases b with
    | nil => simp [charListLt] at hab
    | cons y ys =>
      cases c with
      | nil => simp [charListLt] at hbc
      | cons z zs =>
        simp only [charListLt] at hab hbc ⊢
        by_cases h1 : x.toNat < y.toNat
        · by_cases h2 : y.toNat < z.toNat
          · rw [if_pos (by omega)]
          · by_cases h3 : z.toNat < y.toNat
            · rw [if_neg h2, if_pos h3] at hbc
              exact absurd hbc (by simp)
            · rw [if_pos (by omega)]
        · by_cases h2 : y.toNat < x.toNat
          · rw [if_neg h1, if_pos h2] at hab
            exact absurd hab (by simp)
          · rw [if_neg h1, if_neg h2] at hab
            by_cases h3 : y.toNat < z.toNat
            · rw [if_pos (by omega)]
            · by_cases h4 : z.toNat < y.toNat
              · rw [if_neg h3, if_pos h4] at hbc
                exact absurd hbc (by simp)
              · rw [if_neg h3, if_neg h4] at hbc
                rw [if_neg (by omega), if_neg (by omega)]
                exact ih ys zs hab hbc

theorem strLt_asymm {a b : String} (h : strLt a b = true) : strLt b a = false :=
  charListLt_asymm a.data b.data h

theorem strLt_ne {a b : String} (h : strLt a b = true) : a ≠ b := by
  intro he
  subst he
  rw [strLt, charListLt_irrefl] at h
  exact absurd h (by simp)

theorem strLt_trans {a b c : String} (h1 : strLt a b = true) (h2 : strLt b c = true) :
    strLt a c = true :=
  charListLt_trans a.data b.data c.data h1 h2

theorem insortKey_of_lt (p : String × α) (l : List (String × α))
    (h : ∀ q ∈ l, strLt p.1 q.1 = true) : insortKey p l = p :: l := by
  cases l with
  | nil => rfl
  | cons q l =>
    have hq : strLt q.1 p.1 = false := strLt_asymm (h q (List.mem_cons_self q l))
    simp [insortKey, hq]

theorem keysSorted_head_lt (p : String × α) (l : List (String × α))
    (h : KeysSorted (p :: l)) : ∀ q ∈ l, strLt p.1 q.1 = true := by
  induction l generalizing p with
  | nil => intro q hq; cases hq
  | cons r l ih =>
    intro q hq
    have hpr : strLt p.1 r.1 = true := (List.chain'_cons.mp h).1
    rcases List.mem_cons.mp hq with rfl | hq'
    · exact hpr
    · exact strLt_trans hpr (ih r (List.chain'_cons.mp h).2 q hq')

theorem sortByKey_of_sorted (l : List (String × α)) (h : KeysSorted l) :
    sortByKey l = l := by
  induction l with
  | nil => rfl
  | cons p l ih =>
    rw [sortByKey, ih h.tail, insortKey_of_lt p l (keysSorted_head_lt p l h)]

theorem keysSorted_pairwise (l : List (String × α)) (h : KeysSorted l) :
    l.Pairwise (fun p q => p.1 ≠ q.1) := by
  induction l with
  | nil => exact List.Pairwise.nil
  | cons p l ih =>
    exact List.Pairwise.cons
      (fun q hq => strLt_ne (keysSorted_head_lt p l h q hq)) (ih h.tail)

theorem alookup_append (k : String) (l₁ l₂ : List (String × α)) :
    alookup k (l₁ ++ l₂) =
      match alookup k l₁ with
      | some v => some v
      | none => alookup k l₂ := by
  induction l₁ with
  | nil => simp [alookup]
  | cons p l ih =>
    by_cases hp : p.1 = k
    · simp [alookup, hp]
    · simp [alookup, hp, ih]

theorem foldl_upsert_append (l : List (String × α)) : ∀ acc : List (String × α),
    (∀ p ∈ l, alookup p.1 acc = none) →
    l.Pairwise (fun p q => p.1 ≠ q.1) →
    l.foldl (fun acc p => upsert acc p.1 p.2) acc = acc ++ l := by
  induction l with
  | nil => intro acc _ _; simp
  | cons p l ih =>
    intro acc hacc hpw
    have h1 : alookup p.1 acc = none := hacc p (List.mem_cons_self p l)
    have hup : upsert acc p.1 p.2 = acc ++ [p] := by
      simp [upsert, h1]
    rw [List.foldl_cons, hup,
      ih (acc ++ [p]) ?_ (List.Pairwise.of_cons hpw)]
    · simp
    · intro q hq
      rw [alookup_append, hacc q (List.mem_cons_of_mem p hq)]
      have hne : ¬p.1 = q.1 := (List.pairwise_cons.mp hpw).1 q hq
      simp [alookup, hne]

theorem objToMap_id (l : List (String × α)) (h : l.Pairwise (fun p q => p.1 ≠ q.1)) :
    objToMap l = l := by
  have := foldl_upsert_append l [] (fun p _ => rfl) h
  simpa [objToMap] using this

theorem mergeHeaders_spec (reqh : List (String × List String)) : ∀ acc,
    (∀ p ∈ reqh, p.2 ≠ []) →
    ∃ m, mergeHeaders acc reqh = some m ∧
      ∀ k, alookup k m =
        (match alookup k acc with
         | some v => some v
         | none => (alookup k reqh).bind List.head?) := by
  induction reqh with
  | nil =>
    intro acc _
    refine ⟨acc, rfl, fun k => ?_⟩
    cases h : alookup k acc <;> simp [alookup, h]
  | cons p rest ih =>
    intro acc hne
    obtain ⟨k0, vs⟩ := p
    cases hvs : vs with
    | nil => exact absurd (hvs ▸ rfl) (hne (k0, vs) (List.mem_cons_self _ _))
    | cons v vt =>
      subst hvs
      cases hk : (alookup k0 acc).isSome with
      | true =>
        obtain ⟨m, hm, hchr⟩ := ih acc (fun q hq => hne q (List.mem_cons_of_mem _ hq))
        refine ⟨m, ?_, fun k => ?_⟩
        · simp only [mergeHeaders, hk, if_pos]
          exact hm
        · rw [hchr k]
          by_cases hkk : k0 = k
          · subst hkk
            obtain ⟨w, hw⟩ := Option.isSome_iff_exists.mp hk
            rw [hw]
          · cases hacc : alookup k acc
            · simp [alookup, hkk]
            · rfl
      | false =>
        obtain ⟨m, hm, hchr⟩ := ih (acc ++ [(k0, v)]) (fun q hq => hne q (List.mem_cons_of_mem _ hq))
        refine ⟨m, ?_, fun k => ?_⟩
        · simp only [mergeHeaders, hk]
          exact hm
        · rw [hchr k]
          by_cases hkk : k0 = k
          · subst hkk
            have hn : alookup k0 acc = none := Option.not_isSome_iff_eq_none.mp (by simp [hk])
            rw [alookup_append, hn]
            simp [alookup]
          · rw [alookup_append]
            cases hacc : alookup k acc
            · simp [alookup, hkk]
            · rfl

theorem take_drop_takeWhile (p : Char → Bool) :
    ∀ l : List Char,
      l.take (l.takeWhile p).length = l.takeWhile p ∧
      l.drop (l.takeWhile p).length = l.dropWhile p := by
  intro l
  induction l with
  | nil => simp
  | cons c cs ih =>
    cases hc : p c with
    | true => simp [List.takeWhile_cons, List.dropWhile_cons, hc, ih.1, ih.2]
    | false => simp [List.takeWhile_cons, List.dropWhile_cons, hc]

theorem indexOfSlash_pos : ∀ l : List Char, '/' ∈ l →
    indexOfSlash l = some (l.takeWhile (fun c => c != '/')).length := by
  intro l h
  induction l with
  | nil => cases h
  | cons c cs ih =>
    by_cases hc : c = '/'
    · subst hc
      simp [indexOfSlash, List.takeWhile_cons]
    · have h' : '/' ∈ cs := by
        rcases List.mem_cons.mp h with h'' | h''
        · exact absurd h''.symm hc
        · exact h''
      simp [indexOfSlash, hc, List.takeWhile_cons, bne_iff_ne.mpr hc, ih h']

theorem indexOfSlash_neg : ∀ l : List Char, '/' ∉ l → indexOfSlash l = none := by
  intro l h
  induction l with
  | nil => rfl
  | cons c cs ih =>
    have hc : ¬c = '/' := fun hc => h (hc ▸ List.mem_cons_self c cs)
    have h' : '/' ∉ cs := fun h' => h (List.mem_cons_of_mem c h')
    simp [indexOfSlash, hc, ih h']

/-- Claim C1: a routing string containing a slash splits into the part before
the first slash (the identifier, possibly empty when the string starts with a
slash) and the part from the first slash to the end (the path); a routing
string without a slash is rejected with the invalid-route error. -/
theorem parseUri_split (uri : String) :
    ('/' ∈ uri.data →
        parseUri uri =
          .ok (⟨uri.data.takeWhile (fun c => c != '/')⟩,
               ⟨uri.data.dropWhile (fun c => c != '/')⟩)) ∧
    ('/' ∉ uri.data → parseUri uri = .error "Invalid URL provided") := by
  constructor
  · intro h
    rw [parseUri, indexOfSlash_pos _ h]
    show Except.ok
        (String.mk (uri.data.take (uri.data.takeWhile (fun c => c != '/')).length),
         String.mk (uri.data.drop (uri.data.takeWhile (fun c => c != '/')).length)) =
      (Except.ok
        (String.mk (uri.data.takeWhile (fun c => c != '/')),
         String.mk (uri.data.dropWhile (fun c => c != '/'))) : Except String (String × String))
    rw [(take_drop_takeWhile _ uri.data).1, (take_drop_takeWhile _ uri.data).2]
  · intro h
    rw [parseUri, indexOfSlash_neg _ h]

/-- Claim C1 witness: concrete splits, including the accepted leading-slash
case with an empty identifier, and a concrete rejection. -/
theorem parseUri_split_witness :
    parseUri "svc/items" = .ok ("svc", "/items") ∧
    parseUri "/items" = .ok ("", "/items") ∧
    parseUri "svc" = .error "Invalid URL provided" := by
  exact ⟨((parseUri_split "svc/items").1 (by decide)).trans (by rfl),
    ((parseUri_split "/items").1 (by decide)).trans (by rfl),
    (parseUri_split "svc").2 (by decide)⟩

/-- Claim C3: merging a request's headers over the four fixed auth headers
keeps every fixed header's value (caller-supplied collisions never override)
and maps every other request header key to the first element of its value
list, discarding later elements. -/
theorem do_header_merge (c : Client) (reqh : List (String × List String))
    (hne : ∀ p ∈ reqh, p.2 ≠ []) :
    ∃ m, mergeHeaders c.buildHeaders reqh = some m ∧
      ∀ k, alookup k m =
        (match alookup k c.buildHeaders with
         | some v => some v
         | none => (alookup k reqh).bind List.head?) :=
  mergeHeaders_spec reqh c.buildHeaders hne

/-- Claim C3 witness: a caller header colliding with a fixed key and a
two-valued extra header, merged over a concrete client's headers. -/
theorem do_header_merge_witness :
    ∃ m, mergeHeaders clientOk.buildHeaders
        [("LifeOmic-Account", ["evil"]), ("X-Extra", ["v1", "v2"])] = some m ∧
      ∀ k, alookup k m =
        (match alookup k clientOk.buildHeaders with
         | some v => some v
         | none =>
            (alookup k [("LifeOmic-Account", ["evil"]), ("X-Extra", ["v1", "v2"])]).bind
              List.head?) :=
  do_header_merge clientOk [("LifeOmic-Account", ["evil"]), ("X-Extra", ["v1", "v2"])]
    (by decide)

theorem stripChars_self (ps : List Char) : ∀ rest, stripChars ps (ps ++ rest) = some rest := by
  induction ps with
  | nil => intro rest; rfl
  | cons p ps ih => intro rest; simp [stripChars, ih]

theorem hexVal_hexDigitChar {d : Nat} (h : d < 16) : hexVal? (hexDigitChar d) = some d := by
  interval_cases d <;> rfl

theorem hexDigitChar_isDigit {d : Nat} (h : d < 10) : (hexDigitChar d).isDigit = true := by
  interval_cases d <;> rfl

theorem hexDigitChar_toNat {d : Nat} (h : d < 10) : (hexDigitChar d).toNat = 48 + d := by
  interval_cases d <;> rfl

theorem escapeChar_length_pos (c : Char) : 1 ≤ (escapeChar c).length := by
  rw [escapeChar]
  repeat' split
  all_goals simp [uEsc]

theorem escapeList_cons (c : Char) (cs : List Char) :
    escapeList (c :: cs) = escapeChar c ++ escapeList cs := by
  simp [escapeList]

theorem parseStringBody_unicode (fuel : Nat) (d1 d2 d3 d4 : Char) (a b e f : Nat)
    (X : List Char)
    (h1 : hexVal? d1 = some a) (h2 : hexVal? d2 = some b)
    (h3 : hexVal? d3 = some e) (h4 : hexVal? d4 = some f) :
    parseStringBody (fuel + 1) ('\\' :: 'u' :: d1 :: d2 :: d3 :: d4 :: X) =
      consStr (Char.ofNat (4096 * a + 256 * b + 16 * e + f)) (parseStringBody fuel X) := by
  show (match hexVal? d1, hexVal? d2, hexVal? d3, hexVal? d4 with
        | some a, some b, some c2, some d =>
          consStr (Char.ofNat (4096 * a + 256 * b + 16 * c2 + d)) (parseStringBody fuel X)
        | _, _, _, _ => none) = _
  rw [h1, h2, h3, h4]

theorem parseStringBody_round : ∀ (l rest : List Char) (fuel : Nat),
    (escapeList l).length + 1 ≤ fuel →
    parseStringBody fuel (escapeList l ++ '"' :: rest) = some (l, rest) := by
  intro l
  induction l with
  | nil =>
    intro rest fuel hf
    match fuel, hf with
    | fuel + 1, _ => rfl
  | cons c cs ih =>
    intro rest fuel hf
    rw [escapeList_cons] at hf ⊢
    have hcl : 1 ≤ (escapeChar c).length := escapeChar_length_pos c
    rw [List.length_append] at hf
    match fuel, hf with
    | fuel + 1, hf =>
    have hfc : (escapeList cs).length + 1 ≤ fuel := by omega
    rw [List.append_assoc]
    by_cases h1 : c = '"'
    · subst h1
      show consStr '"' (parseStringBody fuel (escapeList cs ++ '"' :: rest)) = _
      rw [ih rest fuel hfc]
      rfl
    · by_cases h2 : c = '\\'
      · subst h2
        show consStr '\\' (parseStringBody fuel (escapeList cs ++ '"' :: rest)) = _
        rw [ih rest fuel hfc]
        rfl
      · by_cases h3 : c = '\n'
        · subst h3
          show consStr '\n' (parseStringBody fuel (escapeList cs ++ '"' :: rest)) = _
          rw [ih rest fuel hfc]
          rfl
        · by_cases h4 : c = '\r'
          · subst h4
            show consStr '\r' (parseStringBody fuel (escapeList cs ++ '"' :: rest)) = _
            rw [ih rest fuel hfc]
            rfl
          · by_cases h5 : c = '\t'
            · subst h5
              show consStr '\t' (parseStringBody fuel (escapeList cs ++ '"' :: rest)) = _
              rw [ih rest fuel hfc]
              rfl
            · by_cases h6 : c.toNat < 32 ∨ c = '<' ∨ c = '>' ∨ c = '&'
              · have hesc : escapeChar c = uEsc c.toNat := by
                  rw [escapeChar, if_neg h1, if_neg h2, if_neg h3, if_neg h4, if_neg h5,
                    if_pos h6]
                have hlt : c.toNat < 256 := by
                  rcases h6 with h | rfl | rfl | rfl
                  · omega
                  · decide
                  · decide
                  · decide
                rw [hesc]
                show parseStringBody (fuel + 1)
                    ('\\' :: 'u' :: '0' :: '0' :: hexDigitChar (c.toNat / 16) ::
                      hexDigitChar (c.toNat % 16) :: (escapeList cs ++ '"' :: rest)) = _
                rw [parseStringBody_unicode fuel '0' '0' (hexDigitChar (c.toNat / 16))
                  (hexDigitChar (c.toNat % 16)) 0 0 (c.toNat / 16) (c.toNat % 16) _
                  rfl rfl (hexVal_hexDigitChar (by omega)) (hexVal_hexDigitChar (by omega))]
                have harith : c.toNat =
                    4096 * 0 + 256 * 0 + 16 * (c.toNat / 16) + c.toNat % 16 := by omega
                rw [← harith, Char.ofNat_toNat, ih rest fuel hfc]
                rfl
              · by_cases h7 : c.toNat = 8232 ∨ c.toNat = 8233
                · have hesc : escapeChar c =
                      '\\' :: 'u' :: '2' :: '0' :: '2' :: [hexDigitChar (c.toNat % 16)] := by
                    rw [escapeChar, if_neg h1, if_neg h2, if_neg h3, if_neg h4, if_neg h5,
                      if_neg h6, if_pos h7]
                  rw [hesc]
                  show parseStringBody (fuel + 1)
                      ('\\' :: 'u' :: '2' :: '0' :: '2' :: hexDigitChar (c.toNat % 16) ::
                        (escapeList cs ++ '"' :: rest)) = _
                  rw [parseStringBody_unicode fuel '2' '0' '2' (hexDigitChar (c.toNat % 16))
                    2 0 2 (c.toNat % 16) _ rfl rfl rfl (hexVal_hexDigitChar (by omega))]
                  have harith : c.toNat = 4096 * 2 + 256 * 0 + 16 * 2 + c.toNat % 16 := by
                    omega
                  rw [← harith, Char.ofNat_toNat, ih rest fuel hfc]
                  rfl
                · have hesc : escapeChar c = [c] := by
                    rw [escapeChar, if_neg h1, if_neg h2, if_neg h3, if_neg h4, if_neg h5,
                      if_neg h6, if_neg h7]
                  rw [hesc]
                  show (if c = '"' then some ([], escapeList cs ++ '"' :: rest)
                        else if c = '\\' then
                          match escapeList cs ++ '"' :: rest with
                          | [] => none
                          | e :: cs2 =>
                            if e = '"' then consStr '"' (parseStringBody fuel cs2)
                            else if e = '\\' then consStr '\\' (parseStringBody fuel cs2)
                            else if e = '/' then consStr '/' (parseStringBody fuel cs2)
                            else if e = 'n' then consStr '\n' (parseStringBody fuel cs2)
                            else if e = 'r' then consStr '\r' (parseStringBody fuel cs2)
                            else if e = 't' then consStr '\t' (parseStringBody fuel cs2)
                            else if e = 'b' then consStr '\x08' (parseStringBody fuel cs2)
                            else if e = 'f' then consStr '\x0c' (parseStringBody fuel cs2)
                            else if e = 'u' then
                              match cs2 with
                              | h1 :: h2 :: h3 :: h4 :: cs3 =>
                                match hexVal? h1, hexVal? h2, hexVal? h3, hexVal? h4 with
                                | some a, some b, some c2, some d =>
                                  consStr (Char.ofNat (4096 * a + 256 * b + 16 * c2 + d))
                                    (parseStringBody fuel cs3)
                                | _, _, _, _ => none
                              | _ => none
                            else none
                        else consStr c (parseStringBody fuel (escapeList cs ++ '"' :: rest)))
                      = some (c :: cs, rest)
                  rw [if_neg h1, if_neg h2, ih rest fuel hfc]
                  rfl

theorem parseDigits_stop (n : Nat) (rest : List Char) (h : noDigitHead rest = true) :
    parseDigits n rest = (n, rest) := by
  cases rest with
  | nil => rfl
  | cons c cs =>
    simp only [noDigitHead, Bool.not_eq_true'] at h
    simp [parseDigits, h]

theorem parseDigits_render (n : Nat) : ∀ acc rest,
    parseDigits acc (renderNat n ++ rest) =
      parseDigits (acc * 10 ^ (renderNat n).length + n) rest := by
  induction n using Nat.strong_induction_on with
  | _ n ih =>
    intro acc rest
    by_cases h : n < 10
    · rw [renderNat, dif_pos h]
      show parseDigits acc (hexDigitChar n :: rest) = _
      simp only [parseDigits]
      rw [if_pos (hexDigitChar_isDigit h), hexDigitChar_toNat h]
      have harith : 10 * acc + (48 + n - 48) =
          acc * 10 ^ ([hexDigitChar n] : List Char).length + n := by
        simp
        omega
      rw [harith]
    · rw [renderNat, dif_neg h, List.append_assoc]
      rw [ih (n / 10) (by omega) acc ([hexDigitChar (n % 10)] ++ rest)]
      show parseDigits _ (hexDigitChar (n % 10) :: rest) = _
      simp only [parseDigits]
      rw [if_pos (hexDigitChar_isDigit (by omega : n % 10 < 10)),
        hexDigitChar_toNat (by omega : n % 10 < 10)]
      congr 1
      rw [List.length_append, List.length_singleton, pow_succ]
      have hmm : acc * (10 ^ (renderNat (n / 10)).length * 10) =
          acc * 10 ^ (renderNat (n / 10)).length * 10 := by ring
      rw [hmm]
      have := Nat.div_add_mod n 10
      omega

theorem renderNat_cons : ∀ n : Nat, ∃ d ds, renderNat n = d :: ds ∧ d.isDigit = true := by
  intro n
  induction n using Nat.strong_induction_on with
  | _ n ih =>
    by_cases h : n < 10
    · exact ⟨hexDigitChar n, [], by rw [renderNat, dif_pos h], hexDigitChar_isDigit h⟩
    · obtain ⟨d, ds, hd, hdig⟩ := ih (n / 10) (by omega)
      exact ⟨d, ds ++ [hexDigitChar (n % 10)],
        by rw [renderNat, dif_neg h, hd]; rfl, hdig⟩

theorem parseNum_neg_step (c2 : Char) (cs : List Char) (h : c2.isDigit = true) :
    parseNum ('-' :: c2 :: cs) =
      some (-((parseDigits 0 (c2 :: cs)).1 : Int), (parseDigits 0 (c2 :: cs)).2) := by
  show (if c2.isDigit then
        some (-((parseDigits 0 (c2 :: cs)).1 : Int), (parseDigits 0 (c2 :: cs)).2)
      else none) = _
  rw [if_pos h]

theorem parseNum_pos_step (c : Char) (cs : List Char) (hdm : ¬c = '-')
    (h : c.isDigit = true) :
    parseNum (c :: cs) =
      some (((parseDigits 0 (c :: cs)).1 : Int), (parseDigits 0 (c :: cs)).2) := by
  simp only [parseNum]
  rw [if_neg hdm, if_pos h]

theorem parseNum_render (i : Int) (rest : List Char) (h : noDigitHead rest = true) :
    parseNum (renderInt i ++ rest) = some (i, rest) := by
  rw [renderInt]
  by_cases hi : i < 0
  · rw [if_pos hi]
    obtain ⟨d, ds, hd, hdig⟩ := renderNat_cons (-i).toNat
    rw [hd]
    show parseNum ('-' :: (d :: (ds ++ rest))) = _
    rw [parseNum_neg_step d (ds ++ rest) hdig]
    have hrw : d :: (ds ++ rest) = renderNat (-i).toNat ++ rest := by rw [hd]; rfl
    rw [hrw, parseDigits_render, parseDigits_stop _ _ h]
    simp only [Option.some.injEq, Prod.mk.injEq]
    refine ⟨?_, trivial⟩
    simp only [Nat.zero_mul, Nat.zero_add]
    omega
  · rw [if_neg hi]
    obtain ⟨d, ds, hd, hdig⟩ := renderNat_cons i.toNat
    rw [hd]
    show parseNum (d :: (ds ++ rest)) = _
    have hdm : ¬d = '-' := by
      intro he
      rw [he] at hdig
      exact absurd hdig (by decide)
    rw [parseNum_pos_step d (ds ++ rest) hdm hdig]
    have hrw : d :: (ds ++ rest) = renderNat i.toNat ++ rest := by rw [hd]; rfl
    rw [hrw, parseDigits_render, parseDigits_stop _ _ h]
    simp only [Option.some.injEq, Prod.mk.injEq]
    refine ⟨?_, trivial⟩
    simp only [Nat.zero_mul, Nat.zero_add]
    omega

theorem digit_head_not_special (d : Char) (h : d = '-' ∨ d.isDigit = true) :
    ¬d = 'n' ∧ ¬d = 't' ∧ ¬d = 'f' ∧ ¬d = '"' ∧ ¬d = '[' ∧ ¬d = '\x7b' ∧
      ¬d = ']' ∧ ¬d = '\x7d' := by
  rcases h with rfl | h
  · exact ⟨by decide, by decide, by decide, by decide,
      by decide, by decide, by decide, by decide⟩
  · have k : ∀ x : Char, x.isDigit = false → ¬d = x := fun x hx he => by
      rw [he, hx] at h
      cases h
    exact ⟨k 'n' rfl, k 't' rfl, k 'f' rfl, k '"' rfl,
      k '[' rfl, k '\x7b' rfl, k ']' rfl, k '\x7d' rfl⟩

theorem renderInt_cons (i : Int) :
    ∃ d ds, renderInt i = d :: ds ∧ (d = '-' ∨ d.isDigit = true) := by
  rw [renderInt]
  by_cases hi : i < 0
  · exact ⟨'-', _, by rw [if_pos hi], Or.inl rfl⟩
  · obtain ⟨d, ds, hd, hdig⟩ := renderNat_cons i.toNat
    exact ⟨d, ds, by rw [if_neg hi, hd], Or.inr hdig⟩

theorem renderJson_head (j : Json) :
    ∃ c cs, renderJson j = c :: cs ∧ ¬c = ']' ∧ ¬c = '\x7d' := by
  cases j with
  | null => exact ⟨'n', "ull".data, rfl, by decide, by decide⟩
  | bool b => cases b with
    | false => exact ⟨'f', "alse".data, rfl, by decide, by decide⟩
    | true => exact ⟨'t', "rue".data, rfl, by decide, by decide⟩
  | num i =>
    obtain ⟨d, ds, hd, hp⟩ := renderInt_cons i
    have h := digit_head_not_special d hp
    exact ⟨d, ds, by simp [renderJson, hd], h.2.2.2.2.2.2.1, h.2.2.2.2.2.2.2⟩
  | str s =>
    exact ⟨'"', escapeList s.data ++ ['"'], rfl, by decide, by decide⟩
  | arr xs => cases xs with
    | nil => exact ⟨'[', [']'], rfl, by decide, by decide⟩
    | cons x xs =>
      exact ⟨'[', (renderJson x ++ renderElemsTail xs) ++ [']'], rfl, by decide, by decide⟩
  | obj fs => cases fs with
    | nil => exact ⟨'\x7b', ['\x7d'], rfl, by decide, by decide⟩
    | cons f fs =>
      exact ⟨'\x7b', (renderFieldOne f ++ renderFieldsTail fs) ++ ['\x7d'], rfl,
        by decide, by decide⟩

theorem noDigitHead_fieldsTail (fs : List (String × Json)) (rest : List Char) :
    noDigitHead (renderFieldsTail fs ++ '\x7d' :: rest) = true := by
  cases fs with
  | nil => rfl
  | cons f fs => rfl

theorem noDigitHead_elemsTail (xs : List Json) (rest : List Char) :
    noDigitHead (renderElemsTail xs ++ ']' :: rest) = true := by
  cases xs with
  | nil => rfl
  | cons x xs => rfl

mutual

theorem parseVal_render : (j : Json) → (rest : List Char) → (fuel : Nat) →
    jsize j ≤ fuel → noDigitHead rest = true →
    parseVal fuel (renderJson j ++ rest) = some (j, rest)
  | Json.null, rest, fuel, hf, _ => by
    match fuel, hf with
    | fuel + 1, _ =>
    show (match stripChars ['u', 'l', 'l'] ('u' :: 'l' :: 'l' :: rest) with
          | some r => some (Json.null, r)
          | none => none) = _
    rw [show stripChars ['u', 'l', 'l'] ('u' :: 'l' :: 'l' :: rest) = some rest from
      stripChars_self ['u', 'l', 'l'] rest]
  | Json.bool true, rest, fuel, hf, _ => by
    match fuel, hf with
    | fuel + 1, _ =>
    show (match stripChars ['r', 'u', 'e'] ('r' :: 'u' :: 'e' :: rest) with
          | some r => some (Json.bool true, r)
          | none => none) = _
    rw [show stripChars ['r', 'u', 'e'] ('r' :: 'u' :: 'e' :: rest) = some rest from
      stripChars_self ['r', 'u', 'e'] rest]
  | Json.bool false, rest, fuel, hf, _ => by
    match fuel, hf with
    | fuel + 1, _ =>
    show (match stripChars ['a', 'l', 's', 'e'] ('a' :: 'l' :: 's' :: 'e' :: rest) with
          | some r => some (Json.bool false, r)
          | none => none) = _
    rw [show stripChars ['a', 'l', 's', 'e'] ('a' :: 'l' :: 's' :: 'e' :: rest) = some rest
      from stripChars_self ['a', 'l', 's', 'e'] rest]
  | Json.num i, rest, fuel, hf, hrest => by
    match fuel, hf with
    | fuel + 1, _ =>
    obtain ⟨d, ds, hd, hp⟩ := renderInt_cons i
    obtain ⟨n1, n2, n3, n4, n5, n6, _, _⟩ := digit_head_not_special d hp
    have hl : renderJson (Json.num i) ++ rest = d :: (ds ++ rest) := by
      simp [renderJson, hd]
    rw [hl]
    simp only [parseVal]
    rw [if_neg n1, if_neg n2, if_neg n3, if_neg n4, if_neg n5, if_neg n6]
    have hback : d :: (ds ++ rest) = renderInt i ++ rest := by rw [hd]; rfl
    rw [hback, parseNum_render i rest hrest]
  | Json.str s, rest, fuel, hf, _ => by
    match fuel, hf with
    | fuel + 1, _ =>
    have hl : renderJson (Json.str s) ++ rest =
        '"' :: (escapeList s.data ++ '"' :: rest) := by
      simp [renderJson, renderString]
    rw [hl]
    show (match parseStringBody ((escapeList s.data ++ '"' :: rest).length + 1)
            (escapeList s.data ++ '"' :: rest) with
          | some (content, r) => some (Json.str ⟨content⟩, r)
          | none => none) = _
    rw [parseStringBody_round s.data rest _ (by simp [List.length_append])]
  | Json.arr [], rest, fuel, hf, _ => by
    match fuel, hf with
    | fuel + 1, _ => rfl
  | Json.arr (x :: xs), rest, fuel, hf, _ => by
    have hf1 : 1 ≤ fuel := le_trans (by simp only [jsize, elemsSize, fieldsSize]; omega) hf
    match fuel, hf1, hf with
    | fuel + 1, _, hf =>
    have hl : renderJson (Json.arr (x :: xs)) ++ rest =
        '[' :: (renderJson x ++ (renderElemsTail xs ++ ']' :: rest)) := by
      simp [renderJson, List.append_assoc]
    rw [hl]
    obtain ⟨c0, cs0, hhead, hne1, _⟩ := renderJson_head x
    rw [show renderJson x ++ (renderElemsTail xs ++ ']' :: rest) =
      c0 :: (cs0 ++ (renderElemsTail xs ++ ']' :: rest)) from by rw [hhead]; rfl]
    show (if c0 = ']' then some (Json.arr [], cs0 ++ (renderElemsTail xs ++ ']' :: rest))
          else
            match parseElems fuel (c0 :: (cs0 ++ (renderElemsTail xs ++ ']' :: rest))) with
            | some (vs, r) => some (Json.arr vs, r)
            | none => none) = _
    rw [if_neg hne1]
    rw [show c0 :: (cs0 ++ (renderElemsTail xs ++ ']' :: rest)) =
      renderJson x ++ (renderElemsTail xs ++ ']' :: rest) from by rw [hhead]; rfl]
    rw [parseElems_render x xs rest fuel (by simp [jsize] at hf; omega)]
  | Json.obj [], rest, fuel, hf, _ => by
    match fuel, hf with
    | fuel + 1, _ => rfl
  | Json.obj ((k, v) :: fs), rest, fuel, hf, _ => by
    have hf1 : 1 ≤ fuel := le_trans (by simp only [jsize, elemsSize, fieldsSize]; omega) hf
    match fuel, hf1, hf with
    | fuel + 1, _, hf =>
    have hl : renderJson (Json.obj ((k, v) :: fs)) ++ rest =
        '\x7b' :: ('"' :: (escapeList k.data ++
          ('"' :: (':' :: (renderJson v ++ (renderFieldsTail fs ++ '\x7d' :: rest)))))) := by
      simp [renderJson, renderFieldOne, renderString, List.append_assoc]
    rw [hl]
    show (if ('"' : Char) = '\x7d' then
            some (Json.obj [], escapeList k.data ++
              ('"' :: (':' :: (renderJson v ++ (renderFieldsTail fs ++ '\x7d' :: rest)))))
          else
            match parseFields fuel ('"' :: (escapeList k.data ++
                ('"' :: (':' :: (renderJson v ++
                  (renderFieldsTail fs ++ '\x7d' :: rest)))))) with
            | some (flds, r) => some (Json.obj flds, r)
            | none => none) = _
    rw [if_neg (by decide)]
    have harg : '"' :: (escapeList k.data ++
        ('"' :: (':' :: (renderJson v ++ (renderFieldsTail fs ++ '\x7d' :: rest))))) =
        renderString k ++
          (':' :: (renderJson v ++ (renderFieldsTail fs ++ '\x7d' :: rest))) := by
      simp [renderString, List.append_assoc]
    rw [harg, parseFields_render k v fs rest fuel (by simp [jsize] at hf; omega)]
termination_by j => jsize j
decreasing_by all_goals simp [jsize, elemsSize, fieldsSize]

theorem parseElems_render : (x : Json) → (xs : List Json) → (rest : List Char) →
    (fuel : Nat) → elemsSize (x :: xs) ≤ fuel →
    parseElems fuel (renderJson x ++ (renderElemsTail xs ++ ']' :: rest)) =
      some (x :: xs, rest)
  | x, [], rest, fuel, hf => by
    have hf1 : 1 ≤ fuel := le_trans (by simp only [jsize, elemsSize, fieldsSize]; omega) hf
    match fuel, hf1, hf with
    | fuel + 1, _, hf =>
    show (match parseVal fuel (renderJson x ++ (renderElemsTail [] ++ ']' :: rest)) with
          | none => none
          | some (v, r) =>
            match r with
            | [] => none
            | c :: r2 =>
              if c = ',' then
                match parseElems fuel r2 with
                | some (vs, r3) => some (v :: vs, r3)
                | none => none
              else if c = ']' then some ([v], r2)
              else none) = _
    rw [parseVal_render x (renderElemsTail [] ++ ']' :: rest) fuel
      (by simp [elemsSize] at hf; omega) (noDigitHead_elemsTail [] rest)]
    rfl
  | x, y :: ys, rest, fuel, hf => by
    have hf1 : 1 ≤ fuel := le_trans (by simp only [jsize, elemsSize, fieldsSize]; omega) hf
    match fuel, hf1, hf with
    | fuel + 1, _, hf =>
    show (match parseVal fuel (renderJson x ++ (renderElemsTail (y :: ys) ++ ']' :: rest)) with
          | none => none
          | some (v, r) =>
            match r with
            | [] => none
            | c :: r2 =>
              if c = ',' then
                match parseElems fuel r2 with
                | some (vs, r3) => some (v :: vs, r3)
                | none => none
              else if c = ']' then some ([v], r2)
              else none) = _
    rw [parseVal_render x (renderElemsTail (y :: ys) ++ ']' :: rest) fuel
      (by simp [elemsSize] at hf; omega) (noDigitHead_elemsTail (y :: ys) rest)]
    have hr : renderElemsTail (y :: ys) ++ ']' :: rest =
        ',' :: (renderJson y ++ (renderElemsTail ys ++ ']' :: rest)) := by
      simp [renderElemsTail, List.append_assoc]
    rw [hr]
    show (if (',' : Char) = ',' then
            match parseElems fuel (renderJson y ++ (renderElemsTail ys ++ ']' :: rest)) with
            | some (vs, r3) => some (x :: vs, r3)
            | none => none
          else if (',' : Char) = ']' then
            some ([x], renderJson y ++ (renderElemsTail ys ++ ']' :: rest))
          else none) = _
    rw [if_pos rfl, parseElems_render y ys rest fuel (by simp [elemsSize] at hf ⊢; omega)]
termination_by x xs => elemsSize (x :: xs)
decreasing_by
  all_goals simp [jsize, elemsSize, fieldsSize]
  all_goals try omega

theorem parseFields_render : (k : String) → (v : Json) → (fs : List (String × Json)) →
    (rest : List Char) → (fuel : Nat) → fieldsSize ((k, v) :: fs) ≤ fuel →
    parseFields fuel (renderString k ++
        (':' :: (renderJson v ++ (renderFieldsTail fs ++ '\x7d' :: rest)))) =
      some ((k, v) :: fs, rest)
  | k, v, [], rest, fuel, hf => by
    have hf1 : 1 ≤ fuel := le_trans (by simp only [jsize, elemsSize, fieldsSize]; omega) hf
    match fuel, hf1, hf with
    | fuel + 1, _, hf =>
    have hl : renderString k ++
        (':' :: (renderJson v ++ (renderFieldsTail [] ++ '\x7d' :: rest))) =
        '"' :: (escapeList k.data ++
          '"' :: (':' :: (renderJson v ++ (renderFieldsTail [] ++ '\x7d' :: rest)))) := by
      simp [renderString, List.append_assoc]
    rw [hl]
    show (match parseStringBody ((escapeList k.data ++
            '"' :: (':' :: (renderJson v ++ (renderFieldsTail [] ++ '\x7d' :: rest)))).length + 1)
            (escapeList k.data ++
              '"' :: (':' :: (renderJson v ++ (renderFieldsTail [] ++ '\x7d' :: rest)))) with
          | none => none
          | some (key, r) =>
            match r with
            | [] => none
            | c2 :: r2 =>
              if c2 = ':' then
                match parseVal fuel r2 with
                | none => none
                | some (val, r3) =>
                  match r3 with
                  | [] => none
                  | c3 :: r4 =>
                    if c3 = ',' then
                      match parseFields fuel r4 with
                      | some (flds, r5) => some ((String.mk key, val) :: flds, r5)
                      | none => none
                    else if c3 = '\x7d' then some ([(String.mk key, val)], r4)
                    else none
              else none) = _
    rw [parseStringBody_round k.data _ _ (by simp [List.length_append])]
    show (if (':' : Char) = ':' then
            match parseVal fuel (renderJson v ++ (renderFieldsTail [] ++ '\x7d' :: rest)) with
            | none => none
            | some (val, r3) =>
              match r3 with
              | [] => none
              | c3 :: r4 =>
                if c3 = ',' then
                  match parseFields fuel r4 with
                  | some (flds, r5) => some ((String.mk k.data, val) :: flds, r5)
                  | none => none
                else if c3 = '\x7d' then some ([(String.mk k.data, val)], r4)
                else none
          else none) = _
    rw [if_pos rfl]
    rw [parseVal_render v (renderFieldsTail [] ++ '\x7d' :: rest) fuel
      (by simp [fieldsSize] at hf; omega) (noDigitHead_fieldsTail [] rest)]
    rfl
  | k, v, (k2, v2) :: fs2, rest, fuel, hf => by
    have hf1 : 1 ≤ fuel := le_trans (by simp only [jsize, elemsSize, fieldsSize]; omega) hf
    match fuel, hf1, hf with
    | fuel + 1, _, hf =>
    have hl : renderString k ++
        (':' :: (renderJson v ++ (renderFieldsTail ((k2, v2) :: fs2) ++ '\x7d' :: rest))) =
        '"' :: (escapeList k.data ++
          '"' :: (':' :: (renderJson v ++
            (renderFieldsTail ((k2, v2) :: fs2) ++ '\x7d' :: rest)))) := by
      simp [renderString, List.append_assoc]
    rw [hl]
    show (match parseStringBody ((escapeList k.data ++
            '"' :: (':' :: (renderJson v ++
              (renderFieldsTail ((k2, v2) :: fs2) ++ '\x7d' :: rest)))).length + 1)
            (escapeList k.data ++
              '"' :: (':' :: (renderJson v ++
                (renderFieldsTail ((k2, v2) :: fs2) ++ '\x7d' :: rest)))) with
          | none => none
          | some (key, r) =>
            match r with
            | [] => none
            | c2 :: r2 =>
              if c2 = ':' then
                match parseVal fuel r2 with
                | none => none
                | some (val, r3) =>
                  match r3 with
                  | [] => none
                  | c3 :: r4 =>
                    if c3 = ',' then
                      match parseFields fuel r4 with
                      | some (flds, r5) => some ((String.mk key, val) :: flds, r5)
                      | none => none
                    else if c3 = '\x7d' then some ([(String.mk key, val)], r4)
                    else none
              else none) = _
    rw [parseStringBody_round k.data _ _ (by simp [List.length_append])]
    show (if (':' : Char) = ':' then
            match parseVal fuel (renderJson v ++
                (renderFieldsTail ((k2, v2) :: fs2) ++ '\x7d' :: rest)) with
            | none => none
            | some (val, r3) =>
              match r3 with
              | [] => none
              | c3 :: r4 =>
                if c3 = ',' then
                  match parseFields fuel r4 with
                  | some (flds, r5) => some ((String.mk k.data, val) :: flds, r5)
                  | none => none
                else if c3 = '\x7d' then some ([(String.mk k.data, val)], r4)
                else none
          else none) = _
    rw [if_pos rfl]
    rw [parseVal_render v (renderFieldsTail ((k2, v2) :: fs2) ++ '\x7d' :: rest) fuel
      (by simp [fieldsSize] at hf; omega) (noDigitHead_fieldsTail ((k2, v2) :: fs2) rest)]
    have hr : renderFieldsTail ((k2, v2) :: fs2) ++ '\x7d' :: rest =
        ',' :: (renderFieldOne (k2, v2) ++ (renderFieldsTail fs2 ++ '\x7d' :: rest)) := by
      simp [renderFieldsTail, List.append_assoc]
    rw [hr]
    show (if (',' : Char) = ',' then
            match parseFields fuel (renderFieldOne (k2, v2) ++
                (renderFieldsTail fs2 ++ '\x7d' :: rest)) with
            | some (flds, r5) => some ((String.mk k.data, v) :: flds, r5)
            | none => none
          else if (',' : Char) = '\x7d' then
            some ([(String.mk k.data, v)],
              renderFieldOne (k2, v2) ++ (renderFieldsTail fs2 ++ '\x7d' :: rest))
          else none) = _
    rw [if_pos rfl]
    have harg : renderFieldOne (k2, v2) ++ (renderFieldsTail fs2 ++ '\x7d' :: rest) =
        renderString k2 ++
          (':' :: (renderJson v2 ++ (renderFieldsTail fs2 ++ '\x7d' :: rest))) := by
      simp [renderFieldOne, List.append_assoc]
    rw [harg, parseFields_render k2 v2 fs2 rest fuel
      (by simp [fieldsSize] at hf ⊢; omega)]
termination_by k v fs => fieldsSize ((k, v) :: fs)
decreasing_by
  all_goals simp [jsize, elemsSize, fieldsSize]
  all_goals try omega

end

mutual

theorem jsize_le_render : (j : Json) → jsize j ≤ 2 * (renderJson j).length
  | Json.null => by simp [jsize, renderJson]
  | Json.bool true => by simp [jsize, renderJson]
  | Json.bool false => by simp [jsize, renderJson]
  | Json.num i => by
    obtain ⟨d, ds, hd, _⟩ := renderInt_cons i
    simp [jsize, renderJson, hd]
    omega
  | Json.str s => by
    simp [jsize, renderJson, renderString]
    omega
  | Json.arr [] => by simp [jsize, elemsSize, renderJson]
  | Json.arr (x :: xs) => by
    have h1 := jsize_le_render x
    have h2 := elemsSize_le_render xs
    simp only [jsize, elemsSize, renderJson, List.length_cons, List.length_append]
    omega
  | Json.obj [] => by simp [jsize, fieldsSize, renderJson]
  | Json.obj ((k, v) :: fs) => by
    have h1 := jsize_le_render v
    have h2 := fieldsSize_le_render fs
    simp only [jsize, fieldsSize, renderJson, renderFieldOne, renderString,
      List.length_cons, List.length_append]
    omega
termination_by j => sizeOf j

theorem elemsSize_le_render : (xs : List Json) →
    elemsSize xs ≤ 2 * (renderElemsTail xs).length + 2
  | [] => by simp [elemsSize, renderElemsTail]
  | x :: xs => by
    have h1 := jsize_le_render x
    have h2 := elemsSize_le_render xs
    simp only [elemsSize, renderElemsTail, List.length_cons, List.length_append]
    omega
termination_by xs => sizeOf xs

theorem fieldsSize_le_render : (fs : List (String × Json)) →
    fieldsSize fs ≤ 2 * (renderFieldsTail fs).length + 2
  | [] => by simp [fieldsSize, renderFieldsTail]
  | (k, v) :: fs => by
    have h1 := jsize_le_render v
    have h2 := fieldsSize_le_render fs
    simp only [fieldsSize, renderFieldsTail, renderFieldOne, renderString,
      List.length_cons, List.length_append]
    omega
termination_by fs => sizeOf fs

end

theorem json_parse_render (j : Json) : Json.parse (Json.render j) = some j := by
  have hp := parseVal_render j [] (2 * (renderJson j).length + 2)
    (by have := jsize_le_render j; omega) rfl
  rw [List.append_nil] at hp
  show (match parseVal (2 * (renderJson j).length + 2) (renderJson j) with
        | some (jj, []) => some jj
        | _ => none) = some j
  rw [hp]

theorem decodeStringPairs_strs (l : List (String × String)) :
    decodeStringPairs (l.map (fun q => (q.1, Json.str q.2))) = some l := by
  induction l with
  | nil => rfl
  | cons p l ih => simp [decodeStringPairs, ih]

theorem decodeBoolPairs_bools (l : List (String × Bool)) :
    decodeBoolPairs (l.map (fun q => (q.1, Json.bool q.2))) = some l := by
  induction l with
  | nil => rfl
  | cons p l ih => simp [decodeBoolPairs, ih]

theorem decodePolicy_round (r : RulesMap) (hr : optMapCanon r) :
    decodePolicy (Json.obj [("rules", marshalRules r)]) = some r := by
  cases r with
  | none => rfl
  | some kvs =>
    have hs : KeysSorted kvs := hr
    show decodePolicy (Json.obj [("rules",
      Json.obj ((sortByKey kvs).map (fun p => (p.1, Json.bool p.2))))]) = some (some kvs)
    rw [sortByKey_of_sorted kvs hs]
    show (decodeBoolPairs (kvs.map (fun p => (p.1, Json.bool p.2)))).map
        (fun l => some (objToMap l)) = some (some kvs)
    rw [decodeBoolPairs_bools kvs]
    show some (some (objToMap kvs)) = some (some kvs)
    rw [objToMap_id kvs (keysSorted_pairwise kvs hs)]

theorem sortByKey_buildHeaders (c : Client) :
    sortByKey c.buildHeaders =
      [("LifeOmic-Account", c.account),
       ("LifeOmic-Policy", Json.render (policyJson c.rules)),
       ("LifeOmic-User", c.user),
       ("content-type", "application/json")] := rfl

theorem toHeader_alookup (m : List (String × String)) (k : String) :
    alookup k (toHeader m) = (alookup k m).map (fun v => [v]) := by
  induction m with
  | nil => rfl
  | cons p l ih =>
    simp only [toHeader] at ih
    by_cases hp : p.1 = k
    · simp [toHeader, alookup, hp]
    · simp [toHeader, alookup, hp, ih]

/-- Claim C2: buildHeaders always produces exactly the four fixed keys, with
the account, user and fixed content type, and the policy header value is
valid JSON which parses back to an object whose rules field decodes to
exactly the client's rules map, for any rules map including the nil one. -/
theorem buildHeaders_spec (c : Client) (hc : optMapCanon c.rules) :
    c.buildHeaders.map Prod.fst =
      ["LifeOmic-Account", "LifeOmic-User", "content-type", "LifeOmic-Policy"] ∧
    alookup "LifeOmic-Account" c.buildHeaders = some c.account ∧
    alookup "LifeOmic-User" c.buildHeaders = some c.user ∧
    alookup "content-type" c.buildHeaders = some "application/json" ∧
    alookup "LifeOmic-Policy" c.buildHeaders = some (Json.render (policyJson c.rules)) ∧
    Json.parse (Json.render (policyJson c.rules)) =
      some (Json.obj [("rules", marshalRules c.rules)]) ∧
    decodePolicy (Json.obj [("rules", marshalRules c.rules)]) = some c.rules := by
  refine ⟨rfl, rfl, rfl, rfl, rfl, ?_, decodePolicy_round c.rules hc⟩
  exact json_parse_render (policyJson c.rules)

/-- Claim C2 witness: a concrete client with a canonical two-rule map and a
concrete client with a nil rules map, fed through the theorem. -/
theorem buildHeaders_spec_witness :
    (optMapCanon clientRules.rules ∧
      decodePolicy (Json.obj [("rules", marshalRules clientRules.rules)]) =
        some clientRules.rules) ∧
    decodePolicy (Json.obj [("rules", marshalRules clientOk.rules)]) = some clientOk.rules :=
  ⟨⟨by decide, (buildHeaders_spec clientRules (by decide)).2.2.2.2.2.2⟩,
   (buildHeaders_spec clientOk (by decide)).2.2.2.2.2.2⟩

/-- Claim C7: the serialized GraphQL envelope round-trips to a payload whose
method is POST, whose query parameters are empty, whose path is the given
path, whose headers are the composed auth headers (up to the key order of
map serialization), and whose body is exactly the serialized inner GraphQL
body, which itself parses back to the query and variables. -/
theorem buildGqlQuery_envelope (c : Client) (path query : String) (vars : VarsMap) :
    unmarshalPayloadStr (c.buildGqlQuery path query vars) =
      some ⟨sortByKey c.buildHeaders, path, "POST", [],
        Json.render (Json.obj [("query", Json.str query), ("variables", marshalVars vars)])⟩ ∧
    Json.parse (Json.render (Json.obj [("query", Json.str query),
        ("variables", marshalVars vars)])) =
      some (Json.obj [("query", Json.str query), ("variables", marshalVars vars)]) ∧
    (∀ k, alookup k (sortByKey c.buildHeaders) = alookup k c.buildHeaders) := by
  refine ⟨?_, json_parse_render _, ?_⟩
  · show (Json.parse (Json.render (payloadToJson ⟨c.buildHeaders, path, "POST", [],
      Json.render (Json.obj [("query", Json.str query),
        ("variables", marshalVars vars)])⟩))).bind decodePayloadRec = _
    rw [json_parse_render]
    rfl
  · intro k
    by_cases h1 : ("LifeOmic-Account" : String) = k
    · subst h1; rfl
    · by_cases h2 : ("LifeOmic-Policy" : String) = k
      · subst h2; rfl
      · by_cases h3 : ("LifeOmic-User" : String) = k
        · subst h3; rfl
        · by_cases h4 : ("content-type" : String) = k
          · subst h4; rfl
          · rw [sortByKey_buildHeaders]
            simp [alookup, Client.buildHeaders, h1, h2, h3, h4]

/-- Claim C4: once both response layers parse, Gql surfaces the first error
message verbatim when the errors list is non-empty, discarding the rest, and
returns the data map with no error when the errors list is empty. -/
theorem gql_first_error_wins (c : Client) (uri query : String) (vars : VarsMap)
    (fn path out : String) (rp : RespPayload) (rb : RespBody)
    (h1 : parseUri uri = Except.ok (fn, path))
    (h2 : c.invoker Ctx.background fn (c.buildGqlQuery path query vars) = Except.ok out)
    (h3 : unmarshalRespPayload out = some rp)
    (h4 : unmarshalRespBody rp.body = some rb) :
    (rb.errors = [] → (c.Gql uri query vars).result = Except.ok rb.data) ∧
    (∀ m ms, rb.errors = m :: ms → (c.Gql uri query vars).result = Except.error m) := by
  constructor
  · intro he
    simp only [Client.Gql, h1, h2, h3, h4, he]
  · intro m ms he
    simp only [Client.Gql, h1, h2, h3, h4, he]

/-- Claim C4 witness: the specification's error-path test double, whose body
carries the messages boom and second; Gql fails with exactly boom. -/
theorem gql_first_error_wins_witness :
    (Client.Gql clientGqlErr "fn/p" "q" none).result = Except.error "boom" := by
  have h := (gql_first_error_wins clientGqlErr "fn/p" "q" none "fn" "/p" gqlErrOut
    ⟨gqlErrInner, 200, []⟩ ⟨some [], ["boom", "second"]⟩ rfl rfl (by rfl) (by rfl)).2
  exact h "boom" ["second"] rfl

/-- Claim C8: on a successfully parsed response payload, Do returns a
response with the payload's status code verbatim, the payload's body, and a
header collection mapping each response-header key to the one-element list
holding that key's value. -/
theorem do_response_reconstruction (c : Client) (req : HttpRequest)
    (fn path out : String) (hs : List (String × String)) (rp : RespPayload)
    (h1 : parseUri req.url = Except.ok (fn, path))
    (h2 : mergeHeaders c.buildHeaders req.header = some hs)
    (h3 : c.invoker req.ctx fn
      (marshalPayload ⟨hs, path, req.method, [], req.bodyBytes⟩) = Except.ok out)
    (h4 : unmarshalRespPayload out = some rp) :
    (c.Do req).outcome =
      DoOutcome.succeeds ⟨rp.body, rp.statusCode, toHeader rp.headers⟩ ∧
    ∀ k, alookup k (toHeader rp.headers) = (alookup k rp.headers).map (fun v => [v]) := by
  refine ⟨?_, fun k => toHeader_alookup rp.headers k⟩
  simp only [Client.Do, h1, h2, h3, h4]

/-- Claim C8 witness: the specification's reconstruction test double; the
response has status 404, body hello, and X-Test mapped to the list holding
v. -/
theorem do_response_reconstruction_witness :
    (Client.Do clientDoResp doReq).outcome =
      DoOutcome.succeeds ⟨"hello", 404, [("X-Test", ["v"])]⟩ := by
  have h := (do_response_reconstruction clientDoResp doReq "svc" "/items" doRespOut
    clientDoResp.buildHeaders ⟨"hello", 404, [("X-Test", "v")]⟩ rfl rfl rfl (by rfl)).1
  exact h

/-- Claim C10: when the inner body parses as an object with no data field
and an absent, null or empty errors field, Gql succeeds and returns the nil
data map, indistinguishable from an empty one. -/
theorem gql_absent_data (c : Client) (uri query : String) (vars : VarsMap)
    (fn path out : String) (rp : RespPayload) (fields : List (String × Json))
    (h1 : parseUri uri = Except.ok (fn, path))
    (h2 : c.invoker Ctx.background fn (c.buildGqlQuery path query vars) = Except.ok out)
    (h3 : unmarshalRespPayload out = some rp)
    (h4 : Json.parse rp.body = some (Json.obj fields))
    (h5 : alookupLast "data" fields = none)
    (h6 : alookupLast "errors" fields = none ∨
      alookupLast "errors" fields = some (Json.arr []) ∨
      alookupLast "errors" fields = some Json.null) :
    (c.Gql uri query vars).result = Except.ok none := by
  have hb : unmarshalRespBody rp.body = some ⟨none, []⟩ := by
    unfold unmarshalRespBody
    rw [h4]
    show decodeRespBody (Json.obj fields) = some ⟨none, []⟩
    rcases h6 with h6 | h6 | h6 <;> simp only [decodeRespBody, h5, h6] <;> rfl
  simp only [Client.Gql, h1, h2, h3, hb]

/-- Claim C10 witness: a test double whose inner body is the empty object;
Gql returns the nil map with no error. -/
theorem gql_absent_data_witness :
    (Client.Gql clientEmptyBody "fn/p" "q" none).result = Except.ok none :=
  gql_absent_data clientEmptyBody "fn/p" "q" none "fn" "/p" emptyBodyOut
    ⟨"\x7b\x7d", 200, []⟩ [] rfl rfl (by rfl) (by rfl) rfl (Or.inl rfl)

/-- Claim C5 evidence: at a request whose body reader fails, Client.Do
(client.go) discards the read error, performs the invocation anyway and
returns its result, while LambdaClient.Do (the other revision) returns the
read error and performs no invocation; both revisions return the
invalid-route error with no invocation when the routing string has no
slash. -/
theorem do_read_error_divergence :
    (Client.Do clientOk failingReadReq).calls.length = 1 ∧
    (Client.Do clientOk failingReadReq).outcome = DoOutcome.succeeds ⟨"ok", 200, []⟩ ∧
    (LambdaClient.Do clientOk failingReadReq).outcome = DoOutcome.fails "read failure" ∧
    (LambdaClient.Do clientOk failingReadReq).calls = [] ∧
    (Client.Do clientOk noSlashReq).outcome = DoOutcome.fails "Invalid URL provided" ∧
    (Client.Do clientOk noSlashReq).calls = [] ∧
    (LambdaClient.Do clientOk noSlashReq).outcome =
      DoOutcome.fails "Invalid URL provided" ∧
    (LambdaClient.Do clientOk noSlashReq).calls = [] :=
  ⟨rfl, rfl, rfl, rfl, rfl, rfl, rfl, rfl⟩

/-- Claim C6 counterexample: Gql passes the fresh background context to the
gateway, which is not a caller cancellation context; no caller context can
reach the invocation through Gql. -/
theorem gql_ctx_not_caller_cex :
    (Client.Gql clientOk "fn/p" "q" none).calls.map InvokeCall.ctx = [Ctx.background] ∧
    Ctx.background ≠ Ctx.withCancel 0 :=
  ⟨rfl, by decide⟩

/-- Claim C6 as amended: Do passes the request's own context to the gateway
unchanged, in both revisions, and Gql always passes the background context;
neither path constructs a new deadline or timeout context. -/
theorem ctx_propagation (c : Client) (req : HttpRequest) (uri query : String)
    (vars : VarsMap) :
    ((Client.Do c req).calls.map InvokeCall.ctx = [] ∨
      (Client.Do c req).calls.map InvokeCall.ctx = [req.ctx]) ∧
    ((LambdaClient.Do c req).calls.map InvokeCall.ctx = [] ∨
      (LambdaClient.Do c req).calls.map InvokeCall.ctx = [req.ctx]) ∧
    ((Client.Gql c uri query vars).calls.map InvokeCall.ctx = [] ∨
      (Client.Gql c uri query vars).calls.map InvokeCall.ctx = [Ctx.background]) := by
  refine And.intro ?_ (And.intro ?_ ?_)
  · simp only [Client.Do]
    split
    · exact Or.inl rfl
    · split
      · exact Or.inl rfl
      · split
        · exact Or.inr rfl
        · split
          · exact Or.inr rfl
          · exact Or.inr rfl
  · simp only [LambdaClient.Do]
    split
    · exact Or.inl rfl
    · split
      · exact Or.inl rfl
      · split
        · exact Or.inl rfl
        · split
          · exact Or.inr rfl
          · split
            · exact Or.inr rfl
            · exact Or.inr rfl
  · simp only [Client.Gql]
    split
    · exact Or.inl rfl
    · split
      · exact Or.inr rfl
      · split
        · exact Or.inr rfl
        · split
          · exact Or.inr rfl
          · split
            · exact Or.inr rfl
            · exact Or.inr rfl

/-- Claim C9: a request header whose value list is empty drives the
header-merge loop into the out-of-bounds first-element access, a Go panic,
so Do is not total; and under the precondition that every header key carries
a non-empty value list, Do never reaches that panic. -/
theorem do_empty_header_value (c : Client) :
    (Client.Do c emptyHeaderReq).outcome = DoOutcome.panics ∧
    ∀ req : HttpRequest, (∀ p ∈ req.header, p.2 ≠ []) →
      (Client.Do c req).outcome ≠ DoOutcome.panics := by
  constructor
  · rfl
  · intro req hne
    obtain ⟨m, hm, _⟩ := mergeHeaders_spec req.header c.buildHeaders hne
    simp only [Client.Do, hm]
    split
    · simp
    · split
      · simp
      · split <;> simp

/-- Claim C9 witness: a concrete empty-valued header panics, and a concrete
request with a one-element header value list does not. -/
theorem do_empty_header_value_witness :
    (Client.Do clientOk emptyHeaderReq).outcome = DoOutcome.panics ∧
    (Client.Do clientOk okHeaderReq).outcome ≠ DoOutcome.panics :=
  ⟨(do_empty_header_value clientOk).1,
   (do_empty_header_value clientOk).2 okHeaderReq (by decide)⟩

end PhcSdk
